import Mathlib

/-!
SkillMatrix front end: record reconciliation and edit-state machine

A shallow embedding of the stateful logic of `Frontend/src/App.jsx`,
`Frontend/src/components/EmployeeTable.jsx` and
`Frontend/src/components/SearchResults.jsx`.

Every React state cell (`useState`) is a field of a state record and every
`setX(v)` is a write of that field.  An `async` handler is split at its single
`await`: the part before it (which issues the request) and the part that runs
when the request settles, which receives the values its closure captured and
the state found at settlement time.  Requests issued through `employeeAPI` are
appended to a log, so that "no call is made" and "exactly one refresh is
requested" are statements about that log.  `App` renders either the table or
the detail view; the component it does not render is unmounted, and a step of
the client is a handler followed by that render.
-/

namespace SkillMatrix

/-! ## JavaScript values -/

/-- The JavaScript values stored in records and drafts: strings and numbers.
A number is represented by the integer it denotes; every number the handlers
compute is an integer, and `x || 0` only asks whether it is zero. -/
inductive JsVal where
  | str (s : String)
  | num (n : Int)
deriving DecidableEq, Repr

/-- Truthiness of a string: every string but the empty one. -/
def truthyStr (s : String) : Bool := !s.data.isEmpty

/-- The code points `String.prototype.trim` and `parseInt` strip: ECMAScript
`WhiteSpace` (TAB, VT, FF, ZWNBSP and the space separators) and
`LineTerminator` (LF, CR, LS, PS). -/
def isWhiteSpace (c : Char) : Bool :=
  let n := c.toNat
  n == 0x09 || n == 0x0A || n == 0x0B || n == 0x0C || n == 0x0D || n == 0x20 ||
  n == 0xA0 || n == 0x1680 || (0x2000 ≤ n && n ≤ 0x200A) || n == 0x2028 ||
  n == 0x2029 || n == 0x202F || n == 0x205F || n == 0x3000 || n == 0xFEFF

/-- Strip white space from both ends of a character sequence. -/
def trimChars (l : List Char) : List Char :=
  (l.dropWhile isWhiteSpace).rdropWhile isWhiteSpace

/-- The method `String.prototype.trim`. -/
def trim (s : String) : String := ⟨trimChars s.data⟩

/-- Value of a character as a digit, letters counting from ten. -/
def digitValue (c : Char) : Option Nat :=
  let n := c.toNat
  if 48 ≤ n ∧ n ≤ 57 then some (n - 48)
  else if 97 ≤ n ∧ n ≤ 122 then some (n - 97 + 10)
  else if 65 ≤ n ∧ n ≤ 90 then some (n - 65 + 10)
  else none

/-- Value of a character as a digit of radix `R`, if it is one. -/
def radixDigit (R : Nat) (c : Char) : Option Nat :=
  match digitValue c with
  | some d => if d < R then some d else none
  | none => none

/-- The longest leading run of radix-`R` digits, as digit values. -/
def takeDigits (R : Nat) : List Char → List Nat
  | [] => []
  | c :: cs =>
    match radixDigit R c with
    | some d => d :: takeDigits R cs
    | none => []

/-- The integer written by a digit sequence in radix `R`. -/
def mathInt (R : Nat) (ds : List Nat) : Nat :=
  ds.foldl (fun acc d => acc * R + d) 0

/-- The global function `parseInt(string)` called with one argument, following
its ECMAScript definition: leading white space is skipped, one sign is read, a
`0x` or `0X` mark selects radix 16 (radix 10 otherwise), and the longest run of
digits is read; `none` is the result `NaN`, returned when that run is empty. -/
def parseInt (s : String) : Option Int :=
  let S := s.data.dropWhile isWhiteSpace
  let sign : Int := match S with
    | '-' :: _ => -1
    | _ => 1
  let S := match S with
    | '+' :: r => r
    | '-' :: r => r
    | _ => S
  let RS : Nat × List Char := match S with
    | '0' :: 'x' :: r => (16, r)
    | '0' :: 'X' :: r => (16, r)
    | _ => (10, S)
  let Z := takeDigits RS.1 RS.2
  if Z.isEmpty then none else some (sign * (mathInt RS.1 Z : Int))

/-- The expression `x || 0` for a number `x`: `NaN` and zero are falsy. -/
def orZero : Option Int → Int
  | none => 0
  | some n => if n = 0 then 0 else n

/-! ## Data model -/

/-- One employee record as served by the API. -/
structure Employee where
  id : JsVal
  employeeId : String
  name : String
  department : String
  designation : String
  primarySkill : String
  secondarySkill : String
  skillRating : Int
  yearsOfExperience : Int
  email : String
deriving DecidableEq, Repr

/-- The `type` of a message object. -/
inductive MessageType where
  | success
  | error
deriving DecidableEq, Repr

/-- The object held by the `message` state cell of `App`. -/
structure Message where
  type : MessageType
  text : String
deriving DecidableEq, Repr

/-- A draft object (`editData`): its own properties in insertion order. -/
abbrev Draft := List (String × JsVal)

/-- The object `{...prev, [field]: v}`. -/
def Draft.set (prev : Draft) (field : String) (v : JsVal) : Draft :=
  if prev.any (fun kv => kv.1 == field) then
    prev.map (fun kv => if kv.1 == field then (kv.1, v) else kv)
  else prev ++ [(field, v)]

/-- Property read `d[field]`; `none` is `undefined`. -/
def Draft.get (d : Draft) (field : String) : Option JsVal :=
  (d.find? (fun kv => kv.1 == field)).map Prod.snd

/-- A request issued through `employeeAPI`. -/
inductive ApiCall where
  | getAllEmployees
  | searchEmployeeById (employeeId : String)
  | updateEmployee (id : JsVal) (data : Draft)
  | deleteEmployee (id : JsVal)
deriving DecidableEq, Repr

/-- The two ways a request is rejected; the handlers do not tell them apart. -/
inductive ApiError where
  | notFound
  | transport
deriving DecidableEq, Repr

/-- The keyboard event handed to `onKeyPress`; only `key` is read. -/
structure KeyEvent where
  key : String
deriving DecidableEq, Repr

/-- State cells of `App`. -/
structure AppState where
  employees : List Employee
  message : Option Message
  loading : Bool
  searchId : String
  searchResult : Option Employee
  isSearching : Bool
  showAllEmployees : Bool
  showForm : Bool
deriving DecidableEq, Repr

/-- State cells of `EmployeeTable`. -/
structure TableState where
  editingId : Option JsVal
  editData : Draft
  deletingId : Option JsVal
deriving DecidableEq, Repr

/-- State cells of `SearchResults`. -/
structure DetailState where
  editingField : Option String
  editData : Draft
  isUpdating : Bool
  isDeleting : Bool
deriving DecidableEq, Repr

/-- The whole client: the three components and the log of issued requests. -/
structure World where
  app : AppState
  table : TableState
  detail : DetailState
  calls : List ApiCall
deriving DecidableEq, Repr

/-- Initial values of the `useState` cells of `App`. -/
def AppState.init : AppState :=
  { employees := [], message := none, loading := true, searchId := "",
    searchResult := none, isSearching := false, showAllEmployees := true,
    showForm := false }

/-- Initial values of the `useState` cells of `EmployeeTable`. -/
def TableState.init : TableState :=
  { editingId := none, editData := [], deletingId := none }

/-- Initial values of the `useState` cells of `SearchResults`. -/
def DetailState.init : DetailState :=
  { editingField := none, editData := [], isUpdating := false, isDeleting := false }

/-! ## `App` -/

namespace App

/-- The state setter `setMessage`, also handed to the child components. -/
def setMessage (m : Option Message) (w : World) : World :=
  { w with app := { w.app with message := m } }

/-- The state setter `setSearchId` (the `onChange` of the search input). -/
def setSearchId (v : String) (w : World) : World :=
  { w with app := { w.app with searchId := v } }

/-- The state setter `setShowForm`. -/
def setShowForm (b : Bool) (w : World) : World :=
  { w with app := { w.app with showForm := b } }

/-- Function `fetchEmployees` up to its `await`: the list request is issued. -/
def fetchEmployees (w : World) : World :=
  { w with calls := w.calls ++ [ApiCall.getAllEmployees] }

/-- Function `fetchEmployees` from its `await` on. -/
def fetchEmployees_settle (res : Except ApiError (List Employee)) (w : World) : World :=
  let w1 : World := match res with
    | .ok data => { w with app := { w.app with employees := data } }
    | .error _ =>
      setMessage (some {
        type := .error,
        text := "Failed to load employees. Please check if the backend is running." }) w
  { w1 with app := { w1.app with loading := false } }

/-- Function `handleEmployeeAdded`. -/
def handleEmployeeAdded (w : World) : World :=
  setShowForm false (fetchEmployees w)

/-- Function `handleEmployeeUpdated`. -/
def handleEmployeeUpdated (w : World) : World :=
  fetchEmployees w

/-- The guard of `handleSearch`:
`(e && e.key === 'Enter' && searchId.trim()) || (!e && searchId.trim())`. -/
def searchFires (e : Option KeyEvent) (searchId : String) : Bool :=
  (match e with
    | some ev => ev.key == "Enter" && truthyStr (trim searchId)
    | none => false) ||
  (match e with
    | some _ => false
    | none => truthyStr (trim searchId))

/-- Function `handleSearch` up to its `await`. -/
def handleSearch (e : Option KeyEvent) (w : World) : World :=
  if searchFires e w.app.searchId then
    { w with
      app := { w.app with isSearching := true },
      calls := w.calls ++ [ApiCall.searchEmployeeById (trim w.app.searchId)] }
  else w

/-- Function `handleSearch` from its `await` on; `searchId` is the value the
closure captured when the handler was invoked. -/
def handleSearch_settle (searchId : String) (res : Except ApiError Employee)
    (w : World) : World :=
  let w1 : World := match res with
    | .ok data =>
      { w with app := { w.app with
          searchResult := some data,
          showAllEmployees := false,
          message := some { type := .success, text := "Employee found: " ++ data.name } } }
    | .error _ =>
      { w with app := { w.app with
          searchResult := none,
          showAllEmployees := false,
          message := some {
            type := .error,
            text := "Employee with ID \"" ++ searchId ++ "\" not found." } } }
  { w1 with app := { w1.app with isSearching := false } }

/-- Function `handleSearchClick`. -/
def handleSearchClick (w : World) : World :=
  handleSearch none w

/-- Function `handleClearSearch`. -/
def handleClearSearch (w : World) : World :=
  { w with app := { w.app with
      searchId := "", searchResult := none, showAllEmployees := true, message := none } }

/-- The value `displayedEmployees`. -/
def displayedEmployees (a : AppState) : List Employee :=
  if a.showAllEmployees then a.employees
  else match a.searchResult with
    | some r => [r]
    | none => []

/-- Whether `App` renders `SearchResults` (the detail view):
`loading ? ... : searchResult ? <SearchResults/> : <EmployeeTable/>`. -/
def rendersDetail (a : AppState) : Bool :=
  !a.loading && a.searchResult.isSome

end App

/-! ## `EmployeeTable` -/

namespace EmployeeTable

/-- Function `handleEdit`. -/
def handleEdit (employee : Employee) (w : World) : World :=
  { w with table := { w.table with
      editingId := some employee.id,
      editData := [
        ("employeeId", JsVal.str employee.employeeId),
        ("name", JsVal.str employee.name),
        ("department", JsVal.str employee.department),
        ("designation", JsVal.str employee.designation),
        ("primarySkill", JsVal.str employee.primarySkill),
        ("secondarySkill", JsVal.str employee.secondarySkill),
        ("skillRating", JsVal.num employee.skillRating),
        ("yearsOfExperience", JsVal.num employee.yearsOfExperience),
        ("email", JsVal.str employee.email)] } }

/-- Function `handleCancel`. -/
def handleCancel (w : World) : World :=
  { w with table := { w.table with editingId := none, editData := [] } }

/-- Function `handleSave` up to its `await`. -/
def handleSave (id : JsVal) (w : World) : World :=
  { w with calls := w.calls ++ [ApiCall.updateEmployee id w.table.editData] }

/-- Function `handleSave` from its `await` on. -/
def handleSave_settle (res : Except ApiError Employee) (w : World) : World :=
  match res with
  | .ok _ =>
    App.handleEmployeeUpdated
      (App.setMessage (some { type := .success, text := "Employee updated successfully!" })
        { w with table := { w.table with editingId := none, editData := [] } })
  | .error _ =>
    App.setMessage
      (some { type := .error, text := "Failed to update employee. Please try again." }) w

/-- Function `handleInputChange`. -/
def handleInputChange (field : String) (value : String) (w : World) : World :=
  { w with table := { w.table with
      editData := w.table.editData.set field
        (if field == "skillRating" || field == "yearsOfExperience"
          then JsVal.num (orZero (parseInt value)) else JsVal.str value) } }

/-- Function `handleDelete` up to its `await`; `confirmed` is the answer of
`window.confirm`. -/
def handleDelete (confirmed : Bool) (id : JsVal) (w : World) : World :=
  if confirmed then
    { w with
      table := { w.table with deletingId := some id },
      calls := w.calls ++ [ApiCall.deleteEmployee id] }
  else w

/-- Function `handleDelete` from its `await` on. -/
def handleDelete_settle (employeeName : String) (res : Except ApiError Unit)
    (w : World) : World :=
  let w1 : World := match res with
    | .ok _ =>
      App.handleEmployeeUpdated
        (App.setMessage (some {
          type := .success,
          text := "Employee \"" ++ employeeName ++ "\" deleted successfully!" }) w)
    | .error _ =>
      App.setMessage
        (some { type := .error, text := "Failed to delete employee. Please try again." }) w
  { w1 with table := { w1.table with deletingId := none } }

end EmployeeTable

/-! ## `SearchResults` -/

namespace SearchResults

/-- Function `handleEdit`. -/
def handleEdit (field : String) (value : JsVal) (w : World) : World :=
  { w with detail := { w.detail with editingField := some field, editData := [(field, value)] } }

/-- Function `handleSave` up to its `await`; `employee` is the component's
`employee` prop. -/
def handleSave (employee : Employee) (w : World) : World :=
  { w with
    detail := { w.detail with isUpdating := true },
    calls := w.calls ++ [ApiCall.updateEmployee employee.id w.detail.editData] }

/-- Function `handleSave` from its `await` on. -/
def handleSave_settle (res : Except ApiError Employee) (w : World) : World :=
  let w1 : World := match res with
    | .ok _ =>
      let w2 := App.setMessage
        (some { type := .success, text := "Employee updated successfully!" }) w
      App.handleEmployeeUpdated
        { w2 with detail := { w2.detail with editingField := none, editData := [] } }
    | .error _ =>
      App.setMessage
        (some { type := .error, text := "Failed to update employee. Please try again." }) w
  { w1 with detail := { w1.detail with isUpdating := false } }

/-- Function `handleCancel`. -/
def handleCancel (w : World) : World :=
  { w with detail := { w.detail with editingField := none, editData := [] } }

/-- Function `handleDelete` up to its `await`; `confirmed` is the answer of
`window.confirm`. -/
def handleDelete (confirmed : Bool) (employee : Employee) (w : World) : World :=
  if confirmed then
    { w with
      detail := { w.detail with isDeleting := true },
      calls := w.calls ++ [ApiCall.deleteEmployee employee.id] }
  else w

/-- Function `handleDelete` from its `await` on. -/
def handleDelete_settle (employee : Employee) (res : Except ApiError Unit)
    (w : World) : World :=
  let w1 : World := match res with
    | .ok _ =>
      App.handleEmployeeUpdated (App.handleClearSearch
        (App.setMessage (some {
          type := .success,
          text := "Employee \"" ++ employee.name ++ "\" deleted successfully!" }) w))
    | .error _ =>
      App.setMessage
        (some { type := .error, text := "Failed to delete employee. Please try again." }) w
  { w1 with detail := { w1.detail with isDeleting := false } }

/-- The `onChange` handlers of the inputs drawn by `renderField`. -/
def renderField_onChange (field : String) (value : String) (w : World) : World :=
  { w with detail := { w.detail with
      editData :=
        if field == "skillRating" then [(field, JsVal.num (orZero (parseInt value)))]
        else if field == "yearsOfExperience" then [(field, JsVal.num (orZero (parseInt value)))]
        else [(field, JsVal.str value)] } }

end SearchResults

/-! ## The client as a transition system -/

/-- Whether `App` renders `EmployeeTable`, the last branch of
`loading ? ... : searchResult ? <SearchResults/> : <EmployeeTable/>`. -/
def App.rendersTable (a : AppState) : Bool :=
  !a.loading && a.searchResult.isNone

/-- The conditional render of `App` as React carries it out: a component that
is not rendered is unmounted and its state cells are discarded, and when it is
rendered again it starts from its `useState` initial values. -/
def App.render (w : World) : World :=
  { w with
    table := if App.rendersTable w.app then w.table else TableState.init,
    detail := if App.rendersDetail w.app then w.detail else DetailState.init }

/-- Everything that can happen to the client: a user action on one of the
three components, or the settlement of a request.  A settlement named `Late`
is that of a request issued by a component instance that was unmounted since:
its state setters reach no mounted component any more, while the callbacks it
was handed by `App` (`setMessage`, `onEmployeeUpdated`, `onClearSearch`) still
run.  The other settlements of the table and of the detail view are those of a
request issued by the instance now mounted. -/
inductive Event where
  | fetchSettle (res : Except ApiError (List Employee))
  | employeeAdded
  | setMessage (m : Option Message)
  | setSearchId (v : String)
  | setShowForm (b : Bool)
  | search (e : Option KeyEvent)
  | searchSettle (searchId : String) (res : Except ApiError Employee)
  | clearSearch
  | tableEdit (employee : Employee)
  | tableCancel
  | tableSave (id : JsVal)
  | tableSaveSettle (res : Except ApiError Employee)
  | tableInput (field value : String)
  | tableDelete (confirmed : Bool) (id : JsVal)
  | tableDeleteSettle (employeeName : String) (res : Except ApiError Unit)
  | detailEdit (field : String) (value : JsVal)
  | detailSave (employee : Employee)
  | detailSaveSettle (res : Except ApiError Employee)
  | detailCancel
  | detailChange (field value : String)
  | detailDelete (confirmed : Bool) (employee : Employee)
  | detailDeleteSettle (employee : Employee) (res : Except ApiError Unit)
  | tableSaveSettleLate (res : Except ApiError Employee)
  | tableDeleteSettleLate (employeeName : String) (res : Except ApiError Unit)
  | detailSaveSettleLate (res : Except ApiError Employee)
  | detailDeleteSettleLate (employee : Employee) (res : Except ApiError Unit)

/-- The handler run by each event, before `App` renders again. -/
def handle (w : World) : Event → World
  | .fetchSettle res => App.fetchEmployees_settle res w
  | .employeeAdded => App.handleEmployeeAdded w
  | .setMessage m => App.setMessage m w
  | .setSearchId v => App.setSearchId v w
  | .setShowForm b => App.setShowForm b w
  | .search e => App.handleSearch e w
  | .searchSettle searchId res => App.handleSearch_settle searchId res w
  | .clearSearch => App.handleClearSearch w
  | .tableEdit employee => EmployeeTable.handleEdit employee w
  | .tableCancel => EmployeeTable.handleCancel w
  | .tableSave id => EmployeeTable.handleSave id w
  | .tableSaveSettle res => EmployeeTable.handleSave_settle res w
  | .tableInput field value => EmployeeTable.handleInputChange field value w
  | .tableDelete confirmed id => EmployeeTable.handleDelete confirmed id w
  | .tableDeleteSettle employeeName res => EmployeeTable.handleDelete_settle employeeName res w
  | .detailEdit field value => SearchResults.handleEdit field value w
  | .detailSave employee => SearchResults.handleSave employee w
  | .detailSaveSettle res => SearchResults.handleSave_settle res w
  | .detailCancel => SearchResults.handleCancel w
  | .detailChange field value => SearchResults.renderField_onChange field value w
  | .detailDelete confirmed employee => SearchResults.handleDelete confirmed employee w
  | .detailDeleteSettle employee res => SearchResults.handleDelete_settle employee res w
  | .tableSaveSettleLate res =>
    { EmployeeTable.handleSave_settle res w with table := w.table }
  | .tableDeleteSettleLate employeeName res =>
    { EmployeeTable.handleDelete_settle employeeName res w with table := w.table }
  | .detailSaveSettleLate res =>
    { SearchResults.handleSave_settle res w with detail := w.detail }
  | .detailDeleteSettleLate employee res =>
    { SearchResults.handleDelete_settle employee res w with detail := w.detail }

/-- One step of the client: the handler of the event runs, then `App` renders.
Any handler may run in any state, which covers every order in which the user
acts and requests settle. -/
def step (w : World) (ev : Event) : World :=
  App.render (handle w ev)

/-- Run a sequence of events, first to last. -/
def run (evs : List Event) (w : World) : World :=
  evs.foldl step w

/-- The client once `App` has mounted: every state cell holds its initial
value and the mount effect has called `fetchEmployees`. -/
def World.init : World :=
  App.fetchEmployees
    { app := AppState.init, table := TableState.init, detail := DetailState.init, calls := [] }

/-- The two operations of the record store as `App` performs them: `replaceAll`
is a full fetch completing with `records`, `setSingle` is a search settling
with a record or with none (`searchId` being the identifier searched for). -/
inductive StoreOp where
  | replaceAll (records : List Employee)
  | setSingle (searchId : String) (record : Option Employee)

/-- The settlement that performs a store operation. -/
def StoreOp.apply (w : World) : StoreOp → World
  | .replaceAll records => App.fetchEmployees_settle (.ok records) w
  | .setSingle searchId (some r) => App.handleSearch_settle searchId (.ok r) w
  | .setSingle searchId none => App.handleSearch_settle searchId (.error .notFound) w

/-- Perform a sequence of store operations, first to last. -/
def runStore (ops : List StoreOp) (w : World) : World :=
  ops.foldl StoreOp.apply w

/-! ## What the table and the detail view render -/

/-- The test `deletingId === employee.id` by which a table row shows its
Delete button disabled and labelled "Deleting...". -/
def EmployeeTable.rowDeleting (t : TableState) (id : JsVal) : Bool :=
  t.deletingId == some id

/-- The test `editingId === employee.id` by which a table row shows inputs and
the Save and Cancel buttons. -/
def EmployeeTable.rowEditing (t : TableState) (id : JsVal) : Bool :=
  t.editingId == some id

/-- The nine calls of `renderField` in `SearchResults`: each field name with
the value displayed for it. -/
def SearchResults.fields (employee : Employee) : List (String × JsVal) := [
  ("employeeId", JsVal.str employee.employeeId),
  ("name", JsVal.str employee.name),
  ("department", JsVal.str employee.department),
  ("designation", JsVal.str employee.designation),
  ("primarySkill", JsVal.str employee.primarySkill),
  ("secondarySkill", JsVal.str employee.secondarySkill),
  ("skillRating", JsVal.num employee.skillRating),
  ("yearsOfExperience", JsVal.num employee.yearsOfExperience),
  ("email", JsVal.str employee.email)]

/-- What can happen to the edit session of the detail view.  `employee` is the
`employee` prop at the time of the action. -/
inductive DetailEvent where
  | edit (employee : Employee) (field : String)
  | change (field value : String)
  | cancel
  | save (employee : Employee)
  | saveSettle (res : Except ApiError Employee)
  | remount

/-- The handler run by each detail event, offered as `renderField` offers it:
the Edit button of a field exists while that field is not being edited, its
input and the Save and Cancel buttons exist while it is, and Save is disabled
while `isUpdating`.  An action on a control that is not there changes nothing.
`remount` is React discarding the component state when `App` stops rendering
`SearchResults` and renders it again. -/
def detailStep (w : World) : DetailEvent → World
  | .edit employee field =>
    match (SearchResults.fields employee).lookup field with
    | some value =>
      if w.detail.editingField == some field then w
      else SearchResults.handleEdit field value w
    | none => w
  | .change field value =>
    if w.detail.editingField == some field then
      SearchResults.renderField_onChange field value w
    else w
  | .cancel =>
    if w.detail.editingField.isSome then SearchResults.handleCancel w else w
  | .save employee =>
    if w.detail.editingField.isSome && !w.detail.isUpdating then
      SearchResults.handleSave employee w
    else w
  | .saveSettle res => SearchResults.handleSave_settle res w
  | .remount => { w with detail := DetailState.init }

/-- Run a sequence of detail events, first to last. -/
def runDetail (evs : List DetailEvent) (w : World) : World :=
  evs.foldl detailStep w

/-- Whether an event starts or settles a row delete. -/
def Event.isRowDelete : Event → Bool
  | .tableDelete confirmed _ => confirmed
  | .tableDeleteSettle _ _ => true
  | _ => false

/-! ## The message and its auto-hide timer -/

/-- The client together with a clock and the browser's pending timeouts.
`pending` holds each pending timeout as (timer handle, due time in ms);
`cleanup` is the handle that the cleanup function returned by the last run of
the message effect will clear, if that run returned one. -/
structure Timed where
  world : World
  now : Nat
  nextTimer : Nat
  pending : List (Nat × Nat)
  cleanup : Option Nat
deriving DecidableEq, Repr

namespace Timed

/-- The browser function `clearTimeout`. -/
def clearTimeout (timer : Nat) (t : Timed) : Timed :=
  { t with pending := t.pending.filter (fun p => p.1 != timer) }

/-- The browser function `setTimeout`; the callback of every timeout of this
program is `() => setMessage(null)`.  Returns the new handle as well. -/
def setTimeout (delay : Nat) (t : Timed) : Timed × Nat :=
  ({ t with pending := t.pending ++ [(t.nextTimer, t.now + delay)],
            nextTimer := t.nextTimer + 1 }, t.nextTimer)

/-- One run of the effect `useEffect(() => { if (message) { ... } }, [message])`
after `message` changed: the cleanup of the previous run first, then the body. -/
def messageEffect (t : Timed) : Timed :=
  let t1 := match t.cleanup with
    | some timer => clearTimeout timer t
    | none => t
  match t1.world.app.message with
  | some _ =>
    let r := setTimeout 5000 t1
    { r.1 with cleanup := some r.2 }
  | none => { t1 with cleanup := none }

/-- A call of `setMessage` followed by the effect it triggers.  Every message
object is a new object, so the dependency `[message]` has changed unless null
is written over null. -/
def setMessage (m : Option Message) (t : Timed) : Timed :=
  let t1 := { t with world := App.setMessage m t.world }
  if t.world.app.message.isNone && m.isNone then t1 else messageEffect t1

/-- A timeout coming due: it leaves the pending set and its callback
`setMessage(null)` runs, unless it was cleared in the meantime. -/
def fire (t : Timed) (p : Nat × Nat) : Timed :=
  if t.pending.any (fun q => q.1 == p.1) then
    setMessage none { t with pending := t.pending.filter (fun q => q.1 != p.1) }
  else t

/-- Let `dt` ms pass: every timeout due by then fires, in the order set. -/
def advance (dt : Nat) (t : Timed) : Timed :=
  (t.pending.filter (fun p => p.2 ≤ t.now + dt)).foldl fire { t with now := t.now + dt }

/-- The clock at mount: no message, no timeout. -/
def init : Timed :=
  { world := World.init, now := 0, nextTimer := 0, pending := [], cleanup := none }

end Timed

/-- What can happen to the message: a call of `setMessage` (by any handler of
any component) or the passing of time. -/
inductive TimedEvent where
  | setMessage (m : Option Message)
  | advance (dt : Nat)

/-- The effect of one event on the message and its timer. -/
def timedStep (t : Timed) : TimedEvent → Timed
  | .setMessage m => Timed.setMessage m t
  | .advance dt => Timed.advance dt t

/-- Run a sequence of message events, first to last. -/
def runTimed (evs : List TimedEvent) (t : Timed) : Timed :=
  evs.foldl timedStep t

/-! ## Sample inputs -/

/-- A sample record. -/
def ann : Employee := {
  id := .num 7, employeeId := "E-1", name := "Ann", department := "Core",
  designation := "Engineer", primarySkill := "Lean", secondarySkill := "Coq",
  skillRating := 8, yearsOfExperience := 4, email := "ann@example.org" }

/-- A second sample record. -/
def bob : Employee := {
  id := .num 9, employeeId := "E-2", name := "Bob", department := "Ops",
  designation := "Analyst", primarySkill := "SQL", secondarySkill := "Go",
  skillRating := 5, yearsOfExperience := 2, email := "bob@example.org" }

/-- A client whose search input holds an identifier padded with blanks. -/
def typedWorld : World :=
  App.setSearchId "  E-1 " (App.fetchEmployees_settle (.ok [ann, bob]) World.init)

/-- A client in which the row of `ann` is being edited with a changed draft. -/
def editingWorld : World :=
  EmployeeTable.handleInputChange "name" "Anna"
    (EmployeeTable.handleEdit ann (App.fetchEmployees_settle (.ok [ann, bob]) World.init))

/-- A client showing `ann` in the detail view with her rating being edited. -/
def detailWorld : World :=
  SearchResults.renderField_onChange "skillRating" "9"
    (SearchResults.handleEdit "skillRating" (.num 8)
      (App.handleSearch_settle "E-1" (.ok ann) typedWorld))

/-- The record `ann` as the server returns it once her rating was raised. -/
def annRated : Employee := { ann with skillRating := 9 }

/-- The table loaded with `ann` and `bob`. -/
def loadedWorld : World :=
  App.fetchEmployees_settle (.ok [ann, bob]) World.init

/-! ## Auxiliary facts -/

/-- Trimming keeps a contiguous piece of the sequence. -/
theorem trimChars_contiguous (l : List Char) : trimChars l <:+: l :=
  (List.rdropWhile_prefix isWhiteSpace (List.dropWhile isWhiteSpace l)).isInfix.trans
    (List.dropWhile_suffix isWhiteSpace).isInfix

/-- A string is truthy exactly when it is not the empty string. -/
theorem truthyStr_eq_true_iff (s : String) : truthyStr s = true ↔ s ≠ "" := by
  cases s with
  | mk l =>
    cases l with
    | nil => simp [truthyStr]
    | cons c cs =>
      simp only [truthyStr, List.isEmpty_cons, Bool.not_false, ne_eq, true_iff]
      intro h
      have := congrArg String.data h
      simp at this

/-- The guard of `handleSearch` spelled out: a direct call or an Enter key
press, and a search input that is not blank. -/
theorem searchFires_iff (e : Option KeyEvent) (searchId : String) :
    App.searchFires e searchId = true ↔
      (e = none ∨ ∃ ev, e = some ev ∧ ev.key = "Enter") ∧ trim searchId ≠ "" := by
  cases e with
  | none => simp [App.searchFires, truthyStr_eq_true_iff]
  | some ev => simp [App.searchFires, truthyStr_eq_true_iff]

/-! ## Search -/

/-- C1: when the search input is not blank and `handleSearch` is called
directly or by an Enter key press, the lookup of the trimmed identifier is
issued; and when it succeeds with record `r`, then whatever the state `w'` at
settlement, afterwards `searchResult` is `r`, `showAllEmployees` is false, the
displayed collection is `[r]`, and the message is a success message whose text
contains `r.name`. -/
theorem search_success_shows_record (e : Option KeyEvent) (w w' : World) (r : Employee)
    (hid : trim w.app.searchId ≠ "")
    (he : e = none ∨ ∃ ev, e = some ev ∧ ev.key = "Enter") :
    (App.handleSearch e w).calls
        = w.calls ++ [ApiCall.searchEmployeeById (trim w.app.searchId)] ∧
    (App.handleSearch_settle w.app.searchId (.ok r) w').app.searchResult = some r ∧
    (App.handleSearch_settle w.app.searchId (.ok r) w').app.showAllEmployees = false ∧
    App.displayedEmployees (App.handleSearch_settle w.app.searchId (.ok r) w').app = [r] ∧
    ∃ m, (App.handleSearch_settle w.app.searchId (.ok r) w').app.message = some m ∧
      m.type = MessageType.success ∧ r.name.data <:+: m.text.data := by
  have hf : App.searchFires e w.app.searchId = true := (searchFires_iff e _).2 ⟨he, hid⟩
  refine ⟨by simp [App.handleSearch, hf], rfl, rfl, rfl, ?_⟩
  refine ⟨{ type := .success, text := "Employee found: " ++ r.name }, rfl, rfl, ?_⟩
  rw [String.data_append]
  exact (List.suffix_append _ _).isInfix

/-- Witness of C1: `ann` is found from the padded input of `typedWorld`, by a
click on the search button, the response arriving while the request is the
only thing that happened. -/
theorem search_success_shows_record_witness :
    trim typedWorld.app.searchId ≠ "" ∧
    ((App.handleSearch none typedWorld).calls
        = typedWorld.calls ++ [ApiCall.searchEmployeeById (trim typedWorld.app.searchId)] ∧
    (App.handleSearch_settle typedWorld.app.searchId (.ok ann)
        (App.handleSearch none typedWorld)).app.searchResult = some ann ∧
    (App.handleSearch_settle typedWorld.app.searchId (.ok ann)
        (App.handleSearch none typedWorld)).app.showAllEmployees = false ∧
    App.displayedEmployees (App.handleSearch_settle typedWorld.app.searchId (.ok ann)
        (App.handleSearch none typedWorld)).app = [ann] ∧
    ∃ m, (App.handleSearch_settle typedWorld.app.searchId (.ok ann)
        (App.handleSearch none typedWorld)).app.message = some m ∧
      m.type = MessageType.success ∧ ann.name.data <:+: m.text.data) :=
  ⟨by decide,
    search_success_shows_record none typedWorld (App.handleSearch none typedWorld) ann
      (by decide) (Or.inl rfl)⟩

/-- C2: when the search input is not blank and `handleSearch` is called
directly or by an Enter key press, and the lookup fails with any error, then
whatever the state `w'` at settlement, afterwards `searchResult` is null,
`showAllEmployees` is false, the displayed collection is empty whatever
`employees` holds, and the message is an error message whose text contains the
search input as typed, hence also the trimmed identifier that was looked up. -/
theorem search_failure_shows_empty (e : Option KeyEvent) (w w' : World) (err : ApiError)
    (hid : trim w.app.searchId ≠ "")
    (he : e = none ∨ ∃ ev, e = some ev ∧ ev.key = "Enter") :
    (App.handleSearch e w).calls
        = w.calls ++ [ApiCall.searchEmployeeById (trim w.app.searchId)] ∧
    (App.handleSearch_settle w.app.searchId (.error err) w').app.searchResult = none ∧
    (App.handleSearch_settle w.app.searchId (.error err) w').app.showAllEmployees = false ∧
    App.displayedEmployees (App.handleSearch_settle w.app.searchId (.error err) w').app = [] ∧
    ∃ m, (App.handleSearch_settle w.app.searchId (.error err) w').app.message = some m ∧
      m.type = MessageType.error ∧ w.app.searchId.data <:+: m.text.data ∧
      (trim w.app.searchId).data <:+: m.text.data := by
  have hf : App.searchFires e w.app.searchId = true := (searchFires_iff e _).2 ⟨he, hid⟩
  refine ⟨by simp [App.handleSearch, hf], rfl, rfl, rfl, ?_⟩
  have hin : w.app.searchId.data <:+:
      ("Employee with ID \"" ++ w.app.searchId ++ "\" not found.").data := by
    rw [String.data_append, String.data_append]
    exact List.infix_append _ _ _
  exact ⟨{ type := .error, text := "Employee with ID \"" ++ w.app.searchId ++ "\" not found." },
    rfl, rfl, hin, (trimChars_contiguous _).trans hin⟩

/-- Witness of C2: the padded input of `typedWorld` is searched by an Enter key
press and the lookup is answered with not-found. -/
theorem search_failure_shows_empty_witness :
    trim typedWorld.app.searchId ≠ "" ∧
    ((App.handleSearch (some { key := "Enter" }) typedWorld).calls
        = typedWorld.calls ++ [ApiCall.searchEmployeeById (trim typedWorld.app.searchId)] ∧
    (App.handleSearch_settle typedWorld.app.searchId (.error .notFound)
        typedWorld).app.searchResult = none ∧
    (App.handleSearch_settle typedWorld.app.searchId (.error .notFound)
        typedWorld).app.showAllEmployees = false ∧
    App.displayedEmployees (App.handleSearch_settle typedWorld.app.searchId (.error .notFound)
        typedWorld).app = [] ∧
    ∃ m, (App.handleSearch_settle typedWorld.app.searchId (.error .notFound)
        typedWorld).app.message = some m ∧
      m.type = MessageType.error ∧ typedWorld.app.searchId.data <:+: m.text.data ∧
      (trim typedWorld.app.searchId).data <:+: m.text.data) :=
  ⟨by decide,
    search_failure_shows_empty (some { key := "Enter" }) typedWorld typedWorld .notFound
      (by decide) (Or.inr ⟨{ key := "Enter" }, rfl, rfl⟩)⟩

/-- C3: `handleSearch` either returns the state it was given or issues one
lookup; it returns the state unchanged (no request, `employees`,
`searchResult`, `showAllEmployees`, `isSearching` and `message` as before)
exactly when the trimmed search input is empty or the call comes from a key
press whose key is not Enter; and it issues the lookup of the trimmed input
exactly when it is called directly or by an Enter key press with an input that
is not blank. -/
theorem blank_or_other_key_is_noop (e : Option KeyEvent) (w : World) :
    (App.handleSearch e w = w ↔
      (trim w.app.searchId = "" ∨ ∃ ev, e = some ev ∧ ev.key ≠ "Enter")) ∧
    ((App.handleSearch e w).calls
        = w.calls ++ [ApiCall.searchEmployeeById (trim w.app.searchId)] ↔
      ((e = none ∨ ∃ ev, e = some ev ∧ ev.key = "Enter") ∧ trim w.app.searchId ≠ "")) ∧
    ((App.handleSearch e w).calls ≠ w.calls →
      (e = none ∨ ∃ ev, e = some ev ∧ ev.key = "Enter") ∧ trim w.app.searchId ≠ "") := by
  by_cases hf : App.searchFires e w.app.searchId = true
  · have h := (searchFires_iff e _).1 hf
    have hc : (App.handleSearch e w).calls
        = w.calls ++ [ApiCall.searchEmployeeById (trim w.app.searchId)] := by
      simp [App.handleSearch, hf]
    refine ⟨⟨fun heq => ?_, fun hno => ?_⟩, ⟨fun _ => h, fun _ => hc⟩, fun _ => h⟩
    · rw [heq] at hc
      simp at hc
    · rcases hno with hb | ⟨ev, hev, hk⟩
      · exact absurd hb h.2
      · rcases h.1 with hn | ⟨ev', hev', hk'⟩
        · simp [hn] at hev
        · rw [hev] at hev'
          cases hev'
          exact absurd hk' hk
  · have hw : App.handleSearch e w = w := by simp [App.handleSearch, hf]
    have hn : ¬ ((e = none ∨ ∃ ev, e = some ev ∧ ev.key = "Enter") ∧
        trim w.app.searchId ≠ "") := fun h => hf ((searchFires_iff e _).2 h)
    refine ⟨⟨fun _ => ?_, fun _ => hw⟩, ⟨fun hc => ?_, fun h => absurd h hn⟩, fun hc => ?_⟩
    · by_cases hb : trim w.app.searchId = ""
      · exact Or.inl hb
      · right
        cases e with
        | none => exact absurd ⟨Or.inl rfl, hb⟩ hn
        | some ev =>
          refine ⟨ev, rfl, fun hk => hn ⟨Or.inr ⟨ev, rfl, hk⟩, hb⟩⟩
    · rw [hw] at hc
      simp at hc
    · rw [hw] at hc
      exact absurd rfl hc

/-- Witness of C3: in `typedWorld` a key press of the letter `a` changes
nothing, and so does a click once the input holds only blanks. -/
theorem blank_or_other_key_is_noop_witness :
    App.handleSearch (some { key := "a" }) typedWorld = typedWorld ∧
    App.handleSearch none (App.setSearchId " \t " typedWorld)
      = App.setSearchId " \t " typedWorld :=
  ⟨(blank_or_other_key_is_noop (some { key := "a" }) typedWorld).1.2
      (Or.inr ⟨{ key := "a" }, rfl, by decide⟩),
    (blank_or_other_key_is_noop none (App.setSearchId " \t " typedWorld)).1.2
      (Or.inl (by decide))⟩

/-! ## View mode -/

/-- No handler makes `searchResult` non-null while leaving the full-list mode
on: each step keeps "`searchResult` is null or `showAllEmployees` is false". -/
theorem step_keeps_mode (w : World) (ev : Event)
    (h : w.app.searchResult = none ∨ w.app.showAllEmployees = false) :
    (step w ev).app.searchResult = none ∨ (step w ev).app.showAllEmployees = false := by
  cases ev with
  | fetchSettle res => cases res <;> exact h
  | employeeAdded => exact h
  | setMessage m => exact h
  | setSearchId v => exact h
  | setShowForm b => exact h
  | search e =>
    show (App.handleSearch e w).app.searchResult = none ∨
      (App.handleSearch e w).app.showAllEmployees = false
    unfold App.handleSearch
    split <;> exact h
  | searchSettle searchId res => cases res <;> exact Or.inr rfl
  | clearSearch => exact Or.inl rfl
  | tableEdit employee => exact h
  | tableCancel => exact h
  | tableSave id => exact h
  | tableSaveSettle res => cases res <;> exact h
  | tableInput field value => exact h
  | tableDelete confirmed id => cases confirmed <;> exact h
  | tableDeleteSettle employeeName res => cases res <;> exact h
  | detailEdit field value => exact h
  | detailSave employee => exact h
  | detailSaveSettle res => cases res <;> exact h
  | detailCancel => exact h
  | detailChange field value => exact h
  | detailDelete confirmed employee => cases confirmed <;> exact h
  | detailDeleteSettle employee res =>
    cases res
    · exact h
    · exact Or.inl rfl
  | tableSaveSettleLate res => cases res <;> exact h
  | tableDeleteSettleLate employeeName res => cases res <;> exact h
  | detailSaveSettleLate res => cases res <;> exact h
  | detailDeleteSettleLate employee res =>
    cases res
    · exact h
    · exact Or.inl rfl

/-- The mode invariant holds after every run that starts in a state where it
holds. -/
theorem run_keeps_mode (evs : List Event) (w : World)
    (h : w.app.searchResult = none ∨ w.app.showAllEmployees = false) :
    (run evs w).app.searchResult = none ∨ (run evs w).app.showAllEmployees = false := by
  induction evs generalizing w with
  | nil => exact h
  | cons ev evs ih => exact ih (step w ev) (step_keeps_mode w ev h)

/-- C4: in every state reached from the mounted client by any sequence of
handler runs and settlements, either the view is the full list
(`showAllEmployees` true, `searchResult` null, `displayedEmployees` equal to
`employees`) or `showAllEmployees` is false and `displayedEmployees` is the
search result alone, at most one record; `searchResult` is null or
`showAllEmployees` is false, and so the detail view is not rendered or
`showAllEmployees` is false. -/
theorem view_is_full_list_or_single (evs : List Event) :
    (((run evs World.init).app.showAllEmployees = true ∧
        (run evs World.init).app.searchResult = none ∧
        App.displayedEmployees (run evs World.init).app = (run evs World.init).app.employees) ∨
      ((run evs World.init).app.showAllEmployees = false ∧
        App.displayedEmployees (run evs World.init).app
          = (run evs World.init).app.searchResult.toList ∧
        (App.displayedEmployees (run evs World.init).app).length ≤ 1)) ∧
    ((run evs World.init).app.searchResult = none ∨
      (run evs World.init).app.showAllEmployees = false) ∧
    (App.rendersDetail (run evs World.init).app = false ∨
      (run evs World.init).app.showAllEmployees = false) := by
  have h := run_keeps_mode evs World.init (Or.inl rfl)
  generalize (run evs World.init).app = a at h
  obtain ⟨employees, message, loading, searchId, searchResult, isSearching, showAll, showForm⟩ := a
  simp only at h
  cases showAll with
  | true =>
    have hs : searchResult = none := by
      rcases h with h | h
      · exact h
      · cases h
    subst hs
    simp [App.displayedEmployees, App.rendersDetail]
  | false =>
    cases searchResult <;> simp [App.displayedEmployees, App.rendersDetail]

/-- C5 as stated fails: from the mounted client, a search that finds `ann`
followed by a full fetch that completes with `[ann, bob]` leaves the view on
the search result, not on the fetched list, and not in full-list mode. -/
theorem fetch_after_search_keeps_search_view :
    App.displayedEmployees
        (runStore [.setSingle "E-1" (some ann), .replaceAll [ann, bob]] World.init).app
      = [ann] ∧
    App.displayedEmployees
        (runStore [.setSingle "E-1" (some ann), .replaceAll [ann, bob]] World.init).app
      ≠ [ann, bob] ∧
    (runStore [.setSingle "E-1" (some ann), .replaceAll [ann, bob]] World.init).app.showAllEmployees
      = false := by
  decide

/-- Running the operations `pre ++ [op]` is running `pre` and then `op`. -/
theorem runStore_snoc (pre : List StoreOp) (op : StoreOp) (w : World) :
    runStore (pre ++ [op]) w = StoreOp.apply (runStore pre w) op := by
  simp [runStore, List.foldl_append]

/-- C5 amended: for every sequence of store operations from any state, after a
search settles with payload `p` the view is that result alone (`[r]` or empty)
with `showAllEmployees` false; after a full fetch completes with `l`,
`employees` is `l` while `showAllEmployees` and `searchResult` are what they
were before the fetch, so the view is `l` if the full-list mode was on and is
still the earlier search result otherwise. -/
theorem store_ops_view (pre : List StoreOp) (w : World) :
    (∀ (searchId : String) (p : Option Employee),
      App.displayedEmployees (runStore (pre ++ [.setSingle searchId p]) w).app = p.toList ∧
      (runStore (pre ++ [.setSingle searchId p]) w).app.searchResult = p ∧
      (runStore (pre ++ [.setSingle searchId p]) w).app.showAllEmployees = false) ∧
    (∀ l : List Employee,
      (runStore (pre ++ [.replaceAll l]) w).app.employees = l ∧
      (runStore (pre ++ [.replaceAll l]) w).app.showAllEmployees
        = (runStore pre w).app.showAllEmployees ∧
      (runStore (pre ++ [.replaceAll l]) w).app.searchResult
        = (runStore pre w).app.searchResult ∧
      App.displayedEmployees (runStore (pre ++ [.replaceAll l]) w).app
        = if (runStore pre w).app.showAllEmployees then l
          else (runStore pre w).app.searchResult.toList) := by
  constructor
  · intro searchId p
    rw [runStore_snoc]
    cases p <;> exact ⟨rfl, rfl, rfl⟩
  · intro l
    rw [runStore_snoc]
    refine ⟨rfl, rfl, rfl, ?_⟩
    show App.displayedEmployees (App.fetchEmployees_settle (.ok l) (runStore pre w)).app = _
    generalize runStore pre w = v
    simp only [App.displayedEmployees, App.fetchEmployees_settle]
    cases v.app.showAllEmployees
    · cases v.app.searchResult <;> rfl
    · rfl

/-! ## Edit sessions -/

/-- C6: `EmployeeTable.handleSave(id)` issues one update carrying the draft
and changes no state; when that update succeeds, whatever the state `w'` at
settlement, the draft becomes `{}`, `editingId` becomes null, the message is
the success message, exactly one request is added to the log and it is the
full list request made by `onEmployeeUpdated`, and `employees` is what it was
before the settlement. -/
theorem row_commit_success (id : JsVal) (w w' : World) (resp : Employee) :
    (EmployeeTable.handleSave id w).calls
        = w.calls ++ [ApiCall.updateEmployee id w.table.editData] ∧
    (EmployeeTable.handleSave id w).app = w.app ∧
    (EmployeeTable.handleSave id w).table = w.table ∧
    (EmployeeTable.handleSave_settle (.ok resp) w').table.editData = [] ∧
    (EmployeeTable.handleSave_settle (.ok resp) w').table.editingId = none ∧
    (EmployeeTable.handleSave_settle (.ok resp) w').app.message
        = some { type := .success, text := "Employee updated successfully!" } ∧
    (EmployeeTable.handleSave_settle (.ok resp) w').calls
        = w'.calls ++ [ApiCall.getAllEmployees] ∧
    (EmployeeTable.handleSave_settle (.ok resp) w').app.employees = w'.app.employees :=
  ⟨rfl, rfl, rfl, rfl, rfl, rfl, rfl, rfl⟩

/-- C7: when the update is rejected with any error, whatever the state `w` at
settlement, the row-level `handleSave` leaves the whole table state (draft,
`editingId`) as it was, adds no request and sets an error message, and a
further `handleSave(id)` sends the same draft; the field-level `handleSave`
leaves draft and `editingField` as they were, adds no request and sets an
error message, and a further `handleSave` sends the same draft. -/
theorem commit_failure_keeps_draft (w : World) (err : ApiError) (id : JsVal)
    (employee : Employee) :
    ((EmployeeTable.handleSave_settle (.error err) w).table = w.table ∧
      (EmployeeTable.handleSave_settle (.error err) w).calls = w.calls ∧
      (EmployeeTable.handleSave_settle (.error err) w).app.message
        = some { type := .error, text := "Failed to update employee. Please try again." } ∧
      (EmployeeTable.handleSave id (EmployeeTable.handleSave_settle (.error err) w)).calls
        = w.calls ++ [ApiCall.updateEmployee id w.table.editData]) ∧
    ((SearchResults.handleSave_settle (.error err) w).detail.editData = w.detail.editData ∧
      (SearchResults.handleSave_settle (.error err) w).detail.editingField
        = w.detail.editingField ∧
      (SearchResults.handleSave_settle (.error err) w).calls = w.calls ∧
      (SearchResults.handleSave_settle (.error err) w).app.message
        = some { type := .error, text := "Failed to update employee. Please try again." } ∧
      (SearchResults.handleSave employee (SearchResults.handleSave_settle (.error err) w)).calls
        = w.calls ++ [ApiCall.updateEmployee employee.id w.detail.editData]) :=
  ⟨⟨rfl, rfl, rfl, rfl⟩, ⟨rfl, rfl, rfl, rfl, rfl⟩⟩

/-- Reading back the property just written by `{...prev, [field]: v}`. -/
theorem Draft.get_set (d : Draft) (field : String) (v : JsVal) :
    Draft.get (Draft.set d field v) field = some v := by
  unfold Draft.set Draft.get
  split
  · rename_i hany
    induction d with
    | nil => simp at hany
    | cons kv d ih =>
      by_cases hk : kv.1 = field
      · simp [List.find?_cons, hk]
      · have hany' : d.any (fun kv => kv.1 == field) = true := by
          simpa [hk] using hany
        simpa [List.find?_cons, hk] using ih hany'
  · rename_i hany
    have hnone : d.find? (fun kv => kv.1 == field) = none := by
      rw [List.find?_eq_none]
      intro x hx hxf
      exact hany (List.any_eq_true.2 ⟨x, hx, hxf⟩)
    simp [List.find?_append, hnone]

/-- C8: when `parseInt` of the raw input is `NaN`, setting `skillRating` or
`yearsOfExperience` stores the number 0 for that field, in the row-level
`handleInputChange` and in the field-level `onChange` handlers alike. -/
theorem unparsable_input_stores_zero (raw : String) (w : World)
    (hraw : parseInt raw = none) :
    (EmployeeTable.handleInputChange "skillRating" raw w).table.editData.get "skillRating"
      = some (JsVal.num 0) ∧
    (EmployeeTable.handleInputChange "yearsOfExperience" raw w).table.editData.get
        "yearsOfExperience"
      = some (JsVal.num 0) ∧
    (SearchResults.renderField_onChange "skillRating" raw w).detail.editData
      = [("skillRating", JsVal.num 0)] ∧
    (SearchResults.renderField_onChange "yearsOfExperience" raw w).detail.editData
      = [("yearsOfExperience", JsVal.num 0)] := by
  refine ⟨?_, ?_, ?_, ?_⟩
  · show Draft.get (Draft.set w.table.editData "skillRating" _) "skillRating" = _
    rw [Draft.get_set, hraw]
    rfl
  · show Draft.get (Draft.set w.table.editData "yearsOfExperience" _) "yearsOfExperience" = _
    rw [Draft.get_set, hraw]
    rfl
  · simp [SearchResults.renderField_onChange, hraw, orZero]
  · simp [SearchResults.renderField_onChange, hraw, orZero]

/-- Witness of C8: the raw input `abc` typed into the row of `ann` under edit
and into the rating field of the detail view. -/
theorem unparsable_input_stores_zero_witness :
    parseInt "abc" = none ∧
    ((EmployeeTable.handleInputChange "skillRating" "abc" editingWorld).table.editData.get
        "skillRating"
      = some (JsVal.num 0) ∧
    (EmployeeTable.handleInputChange "yearsOfExperience" "abc" editingWorld).table.editData.get
        "yearsOfExperience"
      = some (JsVal.num 0) ∧
    (SearchResults.renderField_onChange "skillRating" "abc" editingWorld).detail.editData
      = [("skillRating", JsVal.num 0)] ∧
    (SearchResults.renderField_onChange "yearsOfExperience" "abc" editingWorld).detail.editData
      = [("yearsOfExperience", JsVal.num 0)]) :=
  ⟨by decide, unparsable_input_stores_zero "abc" editingWorld (by decide)⟩

/-- Draft edits touch nothing but the table state. -/
theorem inputChanges_frame (edits : List (String × String)) (w : World) :
    (edits.foldl (fun v fv => EmployeeTable.handleInputChange fv.1 fv.2 v) w).app = w.app ∧
    (edits.foldl (fun v fv => EmployeeTable.handleInputChange fv.1 fv.2 v) w).calls = w.calls ∧
    (edits.foldl (fun v fv => EmployeeTable.handleInputChange fv.1 fv.2 v) w).detail
      = w.detail := by
  induction edits generalizing w with
  | nil => exact ⟨rfl, rfl, rfl⟩
  | cons fv edits ih => exact ih (EmployeeTable.handleInputChange fv.1 fv.2 w)

/-- C9: for every record and every sequence of `handleInputChange` calls made
after `handleEdit`, the `App` state (`employees` and `message` included) and
the request log are what they were before the edit began, and `handleCancel`
then sets `editingId` to null and the draft to `{}`, again without a request
and without touching the `App` state. -/
theorem draft_edits_leave_store (employee : Employee) (edits : List (String × String))
    (w : World) :
    (edits.foldl (fun v fv => EmployeeTable.handleInputChange fv.1 fv.2 v)
        (EmployeeTable.handleEdit employee w)).app.employees = w.app.employees ∧
    (edits.foldl (fun v fv => EmployeeTable.handleInputChange fv.1 fv.2 v)
        (EmployeeTable.handleEdit employee w)).app = w.app ∧
    (edits.foldl (fun v fv => EmployeeTable.handleInputChange fv.1 fv.2 v)
        (EmployeeTable.handleEdit employee w)).calls = w.calls ∧
    (EmployeeTable.handleCancel
      (edits.foldl (fun v fv => EmployeeTable.handleInputChange fv.1 fv.2 v)
        (EmployeeTable.handleEdit employee w))).table.editingId = none ∧
    (EmployeeTable.handleCancel
      (edits.foldl (fun v fv => EmployeeTable.handleInputChange fv.1 fv.2 v)
        (EmployeeTable.handleEdit employee w))).table.editData = [] ∧
    (EmployeeTable.handleCancel
      (edits.foldl (fun v fv => EmployeeTable.handleInputChange fv.1 fv.2 v)
        (EmployeeTable.handleEdit employee w))).calls = w.calls ∧
    (EmployeeTable.handleCancel
      (edits.foldl (fun v fv => EmployeeTable.handleInputChange fv.1 fv.2 v)
        (EmployeeTable.handleEdit employee w))).app = w.app := by
  obtain ⟨happ, hcalls, _⟩ := inputChanges_frame edits (EmployeeTable.handleEdit employee w)
  have happ' : (edits.foldl (fun v fv => EmployeeTable.handleInputChange fv.1 fv.2 v)
      (EmployeeTable.handleEdit employee w)).app = w.app := happ
  have hcalls' : (edits.foldl (fun v fv => EmployeeTable.handleInputChange fv.1 fv.2 v)
      (EmployeeTable.handleEdit employee w)).calls = w.calls := hcalls
  exact ⟨by rw [happ'], happ', hcalls', rfl, rfl, hcalls', happ'⟩

/-- C10: `handleEdit(B)` in any state, in particular while another record is
being edited with any draft, sets `editingId` to `B.id` and the draft to the
snapshot of the nine editable fields of `B`, so that two states with
different open sessions end with the same session; the `App` state (`message`
included) and the request log are unchanged. -/
theorem begin_edit_replaces_session (B : Employee) (w v : World) :
    (EmployeeTable.handleEdit B w).table.editingId = some B.id ∧
    (EmployeeTable.handleEdit B w).table.editData = [
      ("employeeId", JsVal.str B.employeeId),
      ("name", JsVal.str B.name),
      ("department", JsVal.str B.department),
      ("designation", JsVal.str B.designation),
      ("primarySkill", JsVal.str B.primarySkill),
      ("secondarySkill", JsVal.str B.secondarySkill),
      ("skillRating", JsVal.num B.skillRating),
      ("yearsOfExperience", JsVal.num B.yearsOfExperience),
      ("email", JsVal.str B.email)] ∧
    (EmployeeTable.handleEdit B w).table.editingId
      = (EmployeeTable.handleEdit B v).table.editingId ∧
    (EmployeeTable.handleEdit B w).table.editData
      = (EmployeeTable.handleEdit B v).table.editData ∧
    (EmployeeTable.handleEdit B w).app.message = w.app.message ∧
    (EmployeeTable.handleEdit B w).app = w.app ∧
    (EmployeeTable.handleEdit B w).calls = w.calls :=
  ⟨rfl, rfl, rfl, rfl, rfl, rfl, rfl⟩

/-! ## Deleting from the detail view -/

/-- C11: a confirmed `SearchResults.handleDelete` issues the delete of the
record in view; when it succeeds, whatever the state `w'` at settlement,
afterwards `showAllEmployees` is true, `searchResult` is null, the search input
is empty, the displayed collection is `employees`, and exactly one request,
the full list request, has been added to the log. -/
theorem detail_delete_resets_view (employee : Employee) (w w' : World) :
    (SearchResults.handleDelete true employee w).calls
        = w.calls ++ [ApiCall.deleteEmployee employee.id] ∧
    (SearchResults.handleDelete_settle employee (.ok ()) w').app.showAllEmployees = true ∧
    (SearchResults.handleDelete_settle employee (.ok ()) w').app.searchResult = none ∧
    (SearchResults.handleDelete_settle employee (.ok ()) w').app.searchId = "" ∧
    App.displayedEmployees (SearchResults.handleDelete_settle employee (.ok ()) w').app
        = w'.app.employees ∧
    (SearchResults.handleDelete_settle employee (.ok ()) w').calls
        = w'.calls ++ [ApiCall.getAllEmployees] :=
  ⟨rfl, rfl, rfl, rfl, rfl, rfl⟩

/-- C12 does not hold of the code: after a successful delete from the detail
view the message is null, for every record and every state at settlement,
because `onClearSearch()` runs `setMessage(null)` right after the success
message was set; the row-level delete, which does not call it, keeps its
success message, whose text contains the name of the deleted record. -/
theorem detail_delete_clears_success_message (employee : Employee) (w : World) :
    (SearchResults.handleDelete_settle employee (.ok ()) w).app.message = none ∧
    (EmployeeTable.handleDelete_settle employee.name (.ok ()) w).app.message
        = some { type := .success,
                 text := "Employee \"" ++ employee.name ++ "\" deleted successfully!" } ∧
    employee.name.data <:+:
      ("Employee \"" ++ employee.name ++ "\" deleted successfully!").data := by
  refine ⟨rfl, rfl, ?_⟩
  rw [String.data_append, String.data_append]
  exact List.infix_append _ _ _

/-! ## Responses that arrive late -/

/-- C13 as stated fails: the row of `ann` is edited and saved, the row of
`bob` is opened for edit before that save settles, and when the save of `ann`
succeeds the session of `bob`, open until then, is gone: `editingId` is null
and the draft is `{}`. -/
theorem late_commit_success_closes_other_session :
    (run [.tableEdit ann, .tableInput "name" "Anna", .tableSave ann.id, .tableEdit bob]
        loadedWorld).table.editingId = some bob.id ∧
    (run [.tableEdit ann, .tableInput "name" "Anna", .tableSave ann.id, .tableEdit bob,
        .tableSaveSettle (.ok annRated)] loadedWorld).table.editingId = none ∧
    (run [.tableEdit ann, .tableInput "name" "Anna", .tableSave ann.id, .tableEdit bob,
        .tableSaveSettle (.ok annRated)] loadedWorld).table.editingId ≠ some bob.id ∧
    (run [.tableEdit ann, .tableInput "name" "Anna", .tableSave ann.id, .tableEdit bob,
        .tableSaveSettle (.ok annRated)] loadedWorld).table.editData = [] ∧
    (run [.tableEdit ann, .tableInput "name" "Anna", .tableSave ann.id, .tableEdit bob,
        .tableSaveSettle (.ok annRated)] loadedWorld).table.editData
      ≠ (run [.tableEdit ann, .tableInput "name" "Anna", .tableSave ann.id, .tableEdit bob]
        loadedWorld).table.editData := by
  decide

/-- C13 amended: when a commit for record `A` is in flight and an edit session
for `B` is opened before it settles, a rejected commit of `A` leaves the
session of `B` as it is (`editingId` is `B.id`, the draft is that of `B`),
while a successful commit of `A` closes whatever session is open (`editingId`
null, draft `{}`), for the handler does not compare the response with the
session. -/
theorem late_commit_settlement (A B : Employee) (w : World) (resp : Employee)
    (err : ApiError) :
    (EmployeeTable.handleEdit B (EmployeeTable.handleSave A.id w)).table.editingId
        = some B.id ∧
    (EmployeeTable.handleSave_settle (.error err)
        (EmployeeTable.handleEdit B (EmployeeTable.handleSave A.id w))).table.editingId
      = some B.id ∧
    (EmployeeTable.handleSave_settle (.error err)
        (EmployeeTable.handleEdit B (EmployeeTable.handleSave A.id w))).table.editData
      = (EmployeeTable.handleEdit B (EmployeeTable.handleSave A.id w)).table.editData ∧
    (EmployeeTable.handleSave_settle (.ok resp)
        (EmployeeTable.handleEdit B (EmployeeTable.handleSave A.id w))).table.editingId
      = none ∧
    (EmployeeTable.handleSave_settle (.ok resp)
        (EmployeeTable.handleEdit B (EmployeeTable.handleSave A.id w))).table.editData
      = [] :=
  ⟨rfl, rfl, rfl, rfl, rfl⟩

/-! ## Busy markers -/

/-- C14 as stated fails: with the delete of `ann` in flight, a confirmed delete
of `bob` takes the marker away from the row of `ann`, and the settlement of the
delete of `ann` then takes it away from the row of `bob`, whose delete is
still in flight. -/
theorem second_delete_unmarks_first_row :
    EmployeeTable.rowDeleting
      (run [.tableDelete true ann.id] loadedWorld).table ann.id = true ∧
    EmployeeTable.rowDeleting
      (run [.tableDelete true ann.id, .tableDelete true bob.id] loadedWorld).table ann.id
        = false ∧
    (run [.tableDelete true ann.id, .tableDelete true bob.id] loadedWorld).calls
      = loadedWorld.calls ++ [ApiCall.deleteEmployee ann.id, ApiCall.deleteEmployee bob.id] ∧
    EmployeeTable.rowDeleting
      (run [.tableDelete true ann.id, .tableDelete true bob.id,
        .tableDeleteSettle ann.name (.ok ())] loadedWorld).table bob.id = false := by
  decide

/-- The marker does not outlive the table: with the delete of `bob` in flight,
the arrival of a search result puts the detail view in place of the table, and
the table that comes back after Show All starts with no row marked; the
settlement of that delete, arriving late, leaves the marker of a delete
started in the new table alone. -/
theorem table_unmount_resets_marker :
    EmployeeTable.rowDeleting
      (run [.tableDelete true bob.id] loadedWorld).table bob.id = true ∧
    EmployeeTable.rowDeleting
      (run [.tableDelete true bob.id, .searchSettle "E-1" (.ok ann)] loadedWorld).table bob.id
        = false ∧
    EmployeeTable.rowDeleting
      (run [.tableDelete true bob.id, .searchSettle "E-1" (.ok ann), .clearSearch]
        loadedWorld).table bob.id = false ∧
    EmployeeTable.rowDeleting
      (run [.tableDelete true bob.id, .searchSettle "E-1" (.ok ann), .clearSearch,
        .tableDelete true ann.id, .tableDeleteSettleLate "Bob" (.ok ())]
        loadedWorld).table ann.id = true := by
  decide

/-- Apart from the start and the settlement of a row delete by the mounted
table, no handler writes `deletingId`. -/
theorem handle_keeps_deletingId (w : World) (ev : Event) (hev : ev.isRowDelete = false) :
    (handle w ev).table.deletingId = w.table.deletingId := by
  cases ev with
  | fetchSettle res => cases res <;> rfl
  | employeeAdded => rfl
  | setMessage m => rfl
  | setSearchId v => rfl
  | setShowForm b => rfl
  | search e =>
    show (App.handleSearch e w).table.deletingId = w.table.deletingId
    unfold App.handleSearch
    split <;> rfl
  | searchSettle searchId res => cases res <;> rfl
  | clearSearch => rfl
  | tableEdit employee => rfl
  | tableCancel => rfl
  | tableSave id => rfl
  | tableSaveSettle res => cases res <;> rfl
  | tableInput field value => rfl
  | tableDelete confirmed id =>
    cases confirmed
    · rfl
    · simp [Event.isRowDelete] at hev
  | tableDeleteSettle employeeName res => simp [Event.isRowDelete] at hev
  | detailEdit field value => rfl
  | detailSave employee => rfl
  | detailSaveSettle res => cases res <;> rfl
  | detailCancel => rfl
  | detailChange field value => rfl
  | detailDelete confirmed employee => cases confirmed <;> rfl
  | detailDeleteSettle employee res => cases res <;> rfl
  | tableSaveSettleLate res => rfl
  | tableDeleteSettleLate employeeName res => rfl
  | detailSaveSettleLate res => cases res <;> rfl
  | detailDeleteSettleLate employee res => cases res <;> rfl

/-- After a step that is neither the start nor the settlement of a row delete
by the mounted table, `deletingId` is what it was if `App` still renders the
table, and is null if the step took the table off the screen. -/
theorem step_keeps_or_resets_deletingId (w : World) (ev : Event)
    (hev : ev.isRowDelete = false) :
    (step w ev).table.deletingId
      = if App.rendersTable (step w ev).app then w.table.deletingId else none := by
  have happ : (step w ev).app = (handle w ev).app := rfl
  have htab : (step w ev).table
      = if App.rendersTable (handle w ev).app then (handle w ev).table
        else TableState.init := rfl
  rw [happ, htab]
  cases App.rendersTable (handle w ev).app
  · rfl
  · exact handle_keeps_deletingId w ev hev

/-- C14 amended: the delete marker of the table is one cell of the mounted
table holding at most one id.  A confirmed delete of `a` marks row `a`; after
an event that is neither the start nor the settlement of a row delete by the
mounted table, the marker is what it was if the table is still rendered and is
null if the event took the table off the screen (a search result that
arrived); the settlement of a row delete by the mounted table, successful or
not, unmarks every row.  So a row whose delete is the only one in flight is
marked from its start to its settlement while the table stays on the screen,
and of two overlapping deletes of distinct ids `a` and `b` only the one
started last is marked. -/
theorem delete_marker_is_one_cell (a b : JsVal) (hab : a ≠ b) (w v : World)
    (employeeName : String) (res : Except ApiError Unit)
    (ev : Event) (hev : ev.isRowDelete = false) :
    EmployeeTable.rowDeleting (EmployeeTable.handleDelete true a w).table a = true ∧
    (step v ev).table.deletingId
      = (if App.rendersTable (step v ev).app then v.table.deletingId else none) ∧
    (∀ id, EmployeeTable.rowDeleting
      (EmployeeTable.handleDelete_settle employeeName res v).table id = false) ∧
    (∀ id, EmployeeTable.rowDeleting
      (step v (.tableDeleteSettle employeeName res)).table id = false) ∧
    EmployeeTable.rowDeleting
      (EmployeeTable.handleDelete true b (EmployeeTable.handleDelete true a w)).table a
        = false ∧
    EmployeeTable.rowDeleting
      (EmployeeTable.handleDelete true b (EmployeeTable.handleDelete true a w)).table b
        = true := by
  refine ⟨?_, step_keeps_or_resets_deletingId v ev hev, ?_, ?_, ?_, ?_⟩
  · simp [EmployeeTable.rowDeleting, EmployeeTable.handleDelete]
  · intro id
    cases res <;> rfl
  · intro id
    have htab : (step v (.tableDeleteSettle employeeName res)).table
        = if App.rendersTable (EmployeeTable.handleDelete_settle employeeName res v).app
          then (EmployeeTable.handleDelete_settle employeeName res v).table
          else TableState.init := rfl
    rw [htab]
    cases App.rendersTable (EmployeeTable.handleDelete_settle employeeName res v).app
    · rfl
    · cases res <;> rfl
  · simp only [EmployeeTable.rowDeleting, EmployeeTable.handleDelete, if_true]
    simpa using fun h : b = a => hab h.symm
  · simp [EmployeeTable.rowDeleting, EmployeeTable.handleDelete]

/-- Witness of C14 amended: the deletes of `ann` and `bob` in the loaded
table, and, with the delete of `bob` in flight, the arrival of the search
result `ann` as the event in between, which takes the table off the screen. -/
theorem delete_marker_is_one_cell_witness :
    EmployeeTable.rowDeleting (EmployeeTable.handleDelete true ann.id loadedWorld).table ann.id
      = true ∧
    (step (EmployeeTable.handleDelete true bob.id loadedWorld)
        (.searchSettle "E-1" (.ok ann))).table.deletingId
      = (if App.rendersTable (step (EmployeeTable.handleDelete true bob.id loadedWorld)
          (.searchSettle "E-1" (.ok ann))).app
        then (EmployeeTable.handleDelete true bob.id loadedWorld).table.deletingId
        else none) ∧
    (∀ id, EmployeeTable.rowDeleting
      (EmployeeTable.handleDelete_settle "Bob" (.ok ())
        (EmployeeTable.handleDelete true bob.id loadedWorld)).table id = false) ∧
    (∀ id, EmployeeTable.rowDeleting
      (step (EmployeeTable.handleDelete true bob.id loadedWorld)
        (.tableDeleteSettle "Bob" (.ok ()))).table id = false) ∧
    EmployeeTable.rowDeleting
      (EmployeeTable.handleDelete true bob.id
        (EmployeeTable.handleDelete true ann.id loadedWorld)).table ann.id = false ∧
    EmployeeTable.rowDeleting
      (EmployeeTable.handleDelete true bob.id
        (EmployeeTable.handleDelete true ann.id loadedWorld)).table bob.id = true :=
  delete_marker_is_one_cell ann.id bob.id (by decide) loadedWorld
    (EmployeeTable.handleDelete true bob.id loadedWorld) "Bob" (.ok ())
    (.searchSettle "E-1" (.ok ann)) rfl

/-- C15: each of the four operations with a busy marker sets it in the part
that issues the request and clears it when the request settles, whether it
succeeded or was rejected and whatever the state at settlement: `isSearching`
for the search (which either does nothing or sets the flag and issues the
lookup), `isUpdating` and `isDeleting` for the update and the delete of the
detail view, `deletingId` for the row delete. -/
theorem busy_markers_set_then_cleared (e : Option KeyEvent) (w v : World)
    (searchId employeeName : String) (employee : Employee) (id : JsVal)
    (rs : Except ApiError Employee) (rd : Except ApiError Unit) :
    (App.handleSearch e w = w ∨
      ((App.handleSearch e w).app.isSearching = true ∧
        (App.handleSearch e w).calls
          = w.calls ++ [ApiCall.searchEmployeeById (trim w.app.searchId)])) ∧
    (App.handleSearch_settle searchId rs v).app.isSearching = false ∧
    ((SearchResults.handleSave employee w).detail.isUpdating = true ∧
      (SearchResults.handleSave employee w).calls
        = w.calls ++ [ApiCall.updateEmployee employee.id w.detail.editData]) ∧
    (SearchResults.handleSave_settle rs v).detail.isUpdating = false ∧
    ((SearchResults.handleDelete true employee w).detail.isDeleting = true ∧
      (SearchResults.handleDelete true employee w).calls
        = w.calls ++ [ApiCall.deleteEmployee employee.id]) ∧
    (SearchResults.handleDelete_settle employee rd v).detail.isDeleting = false ∧
    ((EmployeeTable.handleDelete true id w).table.deletingId = some id ∧
      (EmployeeTable.handleDelete true id w).calls
        = w.calls ++ [ApiCall.deleteEmployee id]) ∧
    (EmployeeTable.handleDelete_settle employeeName rd v).table.deletingId = none := by
  refine ⟨?_, ?_, ⟨rfl, rfl⟩, ?_, ⟨rfl, rfl⟩, ?_, ⟨rfl, rfl⟩, ?_⟩
  · by_cases hf : App.searchFires e w.app.searchId = true
    · right
      simp [App.handleSearch, hf]
    · left
      simp [App.handleSearch, hf]
  · cases rs <;> rfl
  · cases rs <;> rfl
  · cases rd <;> rfl
  · cases rd <;> rfl

/-- C18: when `window.confirm` answers no, `handleDelete` of the table and of
the detail view return the state they were given, request log included; for
either answer the log grows by the delete request exactly when the answer is
yes. -/
theorem unconfirmed_delete_changes_nothing (confirmed : Bool) (id : JsVal)
    (employee : Employee) (w : World) :
    EmployeeTable.handleDelete false id w = w ∧
    SearchResults.handleDelete false employee w = w ∧
    (EmployeeTable.handleDelete confirmed id w).calls
      = (if confirmed then w.calls ++ [ApiCall.deleteEmployee id] else w.calls) ∧
    (SearchResults.handleDelete confirmed employee w).calls
      = (if confirmed then w.calls ++ [ApiCall.deleteEmployee employee.id] else w.calls) := by
  refine ⟨rfl, rfl, ?_, ?_⟩ <;> cases confirmed <;> rfl

/-! ## The edit session of the detail view -/

/-- Each detail event keeps the draft in step with `editingField`: no field
under edit and an empty draft, or one field under edit and a draft whose only
key is that field. -/
theorem detailStep_keeps_single_field (w : World) (ev : DetailEvent)
    (h : (w.detail.editingField = none ∧ w.detail.editData = []) ∨
      ∃ f v, w.detail.editingField = some f ∧ w.detail.editData = [(f, v)]) :
    ((detailStep w ev).detail.editingField = none ∧ (detailStep w ev).detail.editData = []) ∨
      ∃ f v, (detailStep w ev).detail.editingField = some f ∧
        (detailStep w ev).detail.editData = [(f, v)] := by
  cases ev with
  | edit employee field =>
    simp only [detailStep]
    split
    · split
      · exact h
      · rename_i value _ _
        exact Or.inr ⟨field, value, rfl, rfl⟩
    · exact h
  | change field value =>
    simp only [detailStep]
    split
    · rename_i hf
      have hf' : w.detail.editingField = some field := by simpa using hf
      right
      simp only [SearchResults.renderField_onChange]
      split
      · exact ⟨field, _, hf', rfl⟩
      · split
        · exact ⟨field, _, hf', rfl⟩
        · exact ⟨field, _, hf', rfl⟩
    · exact h
  | cancel =>
    simp only [detailStep]
    split
    · exact Or.inl ⟨rfl, rfl⟩
    · exact h
  | save employee =>
    simp only [detailStep]
    split
    · exact h
    · exact h
  | saveSettle res =>
    cases res with
    | error err => exact h
    | ok resp => exact Or.inl ⟨rfl, rfl⟩
  | remount => exact Or.inl ⟨rfl, rfl⟩

/-- The draft of the detail view is in step with `editingField` after every
run that starts in a state where it is. -/
theorem runDetail_keeps_single_field (evs : List DetailEvent) (w : World)
    (h : (w.detail.editingField = none ∧ w.detail.editData = []) ∨
      ∃ f v, w.detail.editingField = some f ∧ w.detail.editData = [(f, v)]) :
    ((runDetail evs w).detail.editingField = none ∧ (runDetail evs w).detail.editData = []) ∨
      ∃ f v, (runDetail evs w).detail.editingField = some f ∧
        (runDetail evs w).detail.editData = [(f, v)] := by
  induction evs generalizing w with
  | nil => exact h
  | cons ev evs ih => exact ih (detailStep w ev) (detailStep_keeps_single_field w ev h)

/-- Each of the nine fields drawn by `renderField` is listed once, so that
looking a listed field up gives the value displayed for it. -/
theorem SearchResults.fields_lookup (employee : Employee) (fv : String × JsVal)
    (hfv : fv ∈ SearchResults.fields employee) :
    (SearchResults.fields employee).lookup fv.1 = some fv.2 := by
  simp only [SearchResults.fields, List.mem_cons, List.mem_singleton, List.not_mem_nil,
    or_false] at hfv
  rcases hfv with h | h | h | h | h | h | h | h | h <;> subst h <;> rfl

/-- C16: in every state the detail view reaches from its initial state by
Edit clicks, input changes, Cancel, Save, settlements of Save and remounts, the
draft has at most one key; no field is under edit and the draft is empty, or
one field is under edit and the draft has that field as its only key.  There
`handleSave` sends the draft as it stands as the update for `employee.id`,
which while a field `f` is under edit is the one pair of `f` and its draft
value; a click on Save does nothing when no field is under edit or while
`isUpdating` (no Save button, or a disabled one), and otherwise sends exactly
that one pair and sets `isUpdating`.  `handleEdit` opens the draft with the one
pair of the field and the value handed to it, and a click on the Edit button
of any of the nine fields not under edit opens the draft with that field and
the value displayed for it. -/
theorem detail_draft_has_one_field (evs : List DetailEvent) (employee : Employee)
    (field : String) (value : JsVal) :
    (runDetail evs World.init).detail.editData.length ≤ 1 ∧
    (((runDetail evs World.init).detail.editingField = none ∧
        (runDetail evs World.init).detail.editData = []) ∨
      ∃ f v, (runDetail evs World.init).detail.editingField = some f ∧
        (runDetail evs World.init).detail.editData = [(f, v)]) ∧
    (SearchResults.handleSave employee (runDetail evs World.init)).calls
      = (runDetail evs World.init).calls
        ++ [ApiCall.updateEmployee employee.id (runDetail evs World.init).detail.editData] ∧
    ((runDetail evs World.init).detail.editingField = none ∨
      ∃ f v, (runDetail evs World.init).detail.editingField = some f ∧
        (runDetail evs World.init).detail.editData = [(f, v)] ∧
        (SearchResults.handleSave employee (runDetail evs World.init)).calls
          = (runDetail evs World.init).calls
            ++ [ApiCall.updateEmployee employee.id [(f, v)]]) ∧
    (((runDetail evs World.init).detail.editingField = none ∧
        detailStep (runDetail evs World.init) (.save employee) = runDetail evs World.init) ∨
      ((runDetail evs World.init).detail.isUpdating = true ∧
        detailStep (runDetail evs World.init) (.save employee) = runDetail evs World.init) ∨
      ∃ f v, (runDetail evs World.init).detail.editingField = some f ∧
        (runDetail evs World.init).detail.isUpdating = false ∧
        (runDetail evs World.init).detail.editData = [(f, v)] ∧
        (detailStep (runDetail evs World.init) (.save employee)).calls
          = (runDetail evs World.init).calls
            ++ [ApiCall.updateEmployee employee.id [(f, v)]] ∧
        (detailStep (runDetail evs World.init) (.save employee)).detail.isUpdating = true ∧
        (detailStep (runDetail evs World.init) (.save employee)).detail.editData
          = [(f, v)]) ∧
    ((SearchResults.handleEdit field value (runDetail evs World.init)).detail.editingField
        = some field ∧
      (SearchResults.handleEdit field value (runDetail evs World.init)).detail.editData
        = [(field, value)]) ∧
    (∀ fv ∈ SearchResults.fields employee,
      (runDetail evs World.init).detail.editingField = some fv.1 ∨
      ((detailStep (runDetail evs World.init) (.edit employee fv.1)).detail.editingField
          = some fv.1 ∧
        (detailStep (runDetail evs World.init) (.edit employee fv.1)).detail.editData
          = [fv])) := by
  have h := runDetail_keeps_single_field evs World.init (Or.inl ⟨rfl, rfl⟩)
  generalize runDetail evs World.init = w at h
  refine ⟨?_, h, rfl, ?_, ?_, ⟨rfl, rfl⟩, ?_⟩
  · rcases h with ⟨_, hd⟩ | ⟨f, v, _, hd⟩ <;> simp [hd]
  · rcases h with ⟨hf, _⟩ | ⟨f, v, hf, hd⟩
    · exact Or.inl hf
    · refine Or.inr ⟨f, v, hf, hd, ?_⟩
      simp [SearchResults.handleSave, hd]
  · rcases h with ⟨hf, _⟩ | ⟨f, v, hf, hd⟩
    · left
      exact ⟨hf, by simp [detailStep, hf]⟩
    · by_cases hu : w.detail.isUpdating = true
      · right
        left
        exact ⟨hu, by simp [detailStep, hu]⟩
      · right
        right
        have hu' : w.detail.isUpdating = false := by simpa using hu
        refine ⟨f, v, hf, hu', hd, ?_, ?_, ?_⟩
        · simp [detailStep, hf, hu', SearchResults.handleSave, hd]
        · simp [detailStep, hf, hu', SearchResults.handleSave]
        · simp [detailStep, hf, hu', SearchResults.handleSave, hd]
  · intro fv hfv
    by_cases he : w.detail.editingField = some fv.1
    · exact Or.inl he
    · right
      have hl := SearchResults.fields_lookup employee fv hfv
      have hne : (w.detail.editingField == some fv.1) = false := by simpa using he
      simp only [detailStep, hl, hne]
      exact ⟨rfl, rfl⟩

/-- Witness of C16: with `ann` in view, a click on the Edit button of her
rating, the input `9` and a click on Save send the one pair `skillRating: 9`
for her id; a second click on Save while the first is in flight sends nothing. -/
theorem detail_draft_has_one_field_witness :
    (runDetail [.edit ann "skillRating", .change "skillRating" "9"] World.init).detail.editData
      = [("skillRating", JsVal.num 9)] ∧
    (detailStep (runDetail [.edit ann "skillRating", .change "skillRating" "9"] World.init)
        (.save ann)).calls
      = (runDetail [.edit ann "skillRating", .change "skillRating" "9"] World.init).calls
        ++ [ApiCall.updateEmployee ann.id [("skillRating", JsVal.num 9)]] ∧
    (runDetail [.edit ann "skillRating", .change "skillRating" "9", .save ann, .save ann]
        World.init).calls
      = (runDetail [.edit ann "skillRating", .change "skillRating" "9"] World.init).calls
        ++ [ApiCall.updateEmployee ann.id [("skillRating", JsVal.num 9)]] ∧
    ((runDetail [] World.init).detail.editingField = some ("skillRating", JsVal.num 8).1 ∨
      ((detailStep (runDetail [] World.init) (.edit ann "skillRating")).detail.editingField
          = some "skillRating" ∧
        (detailStep (runDetail [] World.init) (.edit ann "skillRating")).detail.editData
          = [("skillRating", JsVal.num 8)])) :=
  ⟨by decide, by decide, by decide,
    (detail_draft_has_one_field [] ann "skillRating" (.num 8)).2.2.2.2.2.2
      ("skillRating", JsVal.num 8) (by decide)⟩

/-- C17 does not hold of the code: a successful `SearchResults.handleSave`
leaves `searchResult`, the record the detail view shows, as it was, and so
does the completion of the refresh it requests, whatever record the update
returned and whatever list the refresh brings.  With `ann` in view and her
rating changed from 8 to 9, the update sends the pair `skillRating: 9`, and
after it succeeded and the list was fetched again the view still shows `ann`
with rating 8. -/
theorem detail_commit_keeps_stale_record (w : World) (resp : Employee)
    (l : List Employee) :
    (SearchResults.handleSave_settle (.ok resp) w).app.searchResult = w.app.searchResult ∧
    (App.fetchEmployees_settle (.ok l)
        (SearchResults.handleSave_settle (.ok resp) w)).app.searchResult
      = w.app.searchResult ∧
    (SearchResults.handleSave ann detailWorld).calls
      = detailWorld.calls ++ [ApiCall.updateEmployee ann.id [("skillRating", JsVal.num 9)]] ∧
    (App.fetchEmployees_settle (.ok [annRated, bob])
        (SearchResults.handleSave_settle (.ok annRated)
          (SearchResults.handleSave ann detailWorld))).app.searchResult = some ann ∧
    ann.skillRating = 8 ∧ annRated.skillRating = 9 := by
  refine ⟨rfl, rfl, ?_, ?_, rfl, rfl⟩ <;> decide

/-! ## Deleting a row that is being edited -/

/-- C19 as stated fails: the delete of `ann` is confirmed, her row is opened
for edit and changed while the delete is in flight, and after the delete
succeeded, and still after the refreshed list without her arrived,
`editingId` is the id of `ann` and her draft is kept. -/
theorem delete_keeps_session_of_deleted_row :
    (run [.tableDelete true ann.id, .tableEdit ann, .tableInput "name" "Anna",
        .tableDeleteSettle ann.name (.ok ())] loadedWorld).table.editingId = some ann.id ∧
    (run [.tableDelete true ann.id, .tableEdit ann, .tableInput "name" "Anna",
        .tableDeleteSettle ann.name (.ok ())] loadedWorld).table.editData.get "name"
      = some (JsVal.str "Anna") ∧
    (run [.tableDelete true ann.id, .tableEdit ann, .tableInput "name" "Anna",
        .tableDeleteSettle ann.name (.ok ()), .fetchSettle (.ok [bob])]
        loadedWorld).table.editingId = some ann.id ∧
    (run [.tableDelete true ann.id, .tableEdit ann, .tableInput "name" "Anna",
        .tableDeleteSettle ann.name (.ok ()), .fetchSettle (.ok [bob])]
        loadedWorld).table.editData ≠ [] := by
  decide

/-- C19 amended: when the delete of record `A` succeeds while the edit session
of `A` is open and the table is what `App` renders, the settlement leaves
`editingId` and the draft as they were and requests the full list; once that
list `l`, which does not hold the id of `A`, has arrived, `editingId` and the
draft are still as they were, and no displayed row has the id `editingId`
refers to, so no row is rendered in edit mode. -/
theorem deleted_row_session_is_only_hidden (A : Employee) (w : World) (l : List Employee)
    (hview : w.app.searchResult = none)
    (hedit : w.table.editingId = some A.id)
    (hgone : ∀ e ∈ l, e.id ≠ A.id) :
    (EmployeeTable.handleDelete_settle A.name (.ok ()) w).table.editingId = some A.id ∧
    (EmployeeTable.handleDelete_settle A.name (.ok ()) w).table.editData
      = w.table.editData ∧
    (EmployeeTable.handleDelete_settle A.name (.ok ()) w).calls
      = w.calls ++ [ApiCall.getAllEmployees] ∧
    (App.fetchEmployees_settle (.ok l)
      (EmployeeTable.handleDelete_settle A.name (.ok ()) w)).table.editingId = some A.id ∧
    (App.fetchEmployees_settle (.ok l)
      (EmployeeTable.handleDelete_settle A.name (.ok ()) w)).table.editData
        = w.table.editData ∧
    ∀ e ∈ App.displayedEmployees (App.fetchEmployees_settle (.ok l)
        (EmployeeTable.handleDelete_settle A.name (.ok ()) w)).app,
      EmployeeTable.rowEditing (App.fetchEmployees_settle (.ok l)
        (EmployeeTable.handleDelete_settle A.name (.ok ()) w)).table e.id = false := by
  refine ⟨hedit, rfl, rfl, hedit, rfl, ?_⟩
  intro e he
  have hrow : EmployeeTable.rowEditing (App.fetchEmployees_settle (.ok l)
      (EmployeeTable.handleDelete_settle A.name (.ok ()) w)).table e.id
        = (w.table.editingId == some e.id) := rfl
  have hdisp : App.displayedEmployees (App.fetchEmployees_settle (.ok l)
      (EmployeeTable.handleDelete_settle A.name (.ok ()) w)).app
        = if w.app.showAllEmployees then l else [] := by
    simp only [App.displayedEmployees, App.fetchEmployees_settle,
      EmployeeTable.handleDelete_settle, App.handleEmployeeUpdated, App.fetchEmployees,
      App.setMessage, hview]
  rw [hdisp] at he
  rw [hrow, hedit]
  have hl : e ∈ l := by
    cases hs : w.app.showAllEmployees
    · rw [hs] at he
      simp at he
    · rw [hs] at he
      simpa using he
  simpa using fun h : A.id = e.id => hgone e hl h.symm

/-- Witness of C19 amended: the delete of `ann` settles in the loaded table
while her row is under edit, and the refreshed list holds `bob` alone. -/
theorem deleted_row_session_is_only_hidden_witness :
    (run [.tableDelete true ann.id, .tableEdit ann, .tableInput "name" "Anna"]
        loadedWorld).app.searchResult = none ∧
    (run [.tableDelete true ann.id, .tableEdit ann, .tableInput "name" "Anna"]
        loadedWorld).table.editingId = some ann.id ∧
    (∀ e ∈ [bob], e.id ≠ ann.id) ∧
    ∀ e ∈ App.displayedEmployees (App.fetchEmployees_settle (.ok [bob])
        (EmployeeTable.handleDelete_settle ann.name (.ok ())
          (run [.tableDelete true ann.id, .tableEdit ann, .tableInput "name" "Anna"]
            loadedWorld))).app,
      EmployeeTable.rowEditing (App.fetchEmployees_settle (.ok [bob])
        (EmployeeTable.handleDelete_settle ann.name (.ok ())
          (run [.tableDelete true ann.id, .tableEdit ann, .tableInput "name" "Anna"]
            loadedWorld))).table e.id = false :=
  ⟨by decide, by decide, by decide,
    (deleted_row_session_is_only_hidden ann
      (run [.tableDelete true ann.id, .tableEdit ann, .tableInput "name" "Anna"] loadedWorld)
      [bob] (by decide) (by decide) (by decide)).2.2.2.2.2⟩

/-! ## The auto-hide timer of the message -/

/-- Setting a message when the timer state is in order: the timeout of the
previous message, if any, is cleared and one timeout due in 5000 ms is set. -/
theorem Timed.setMessage_some_eq (t : Timed) (m : Message)
    (h : (t.world.app.message = none ∧ t.pending = [] ∧ t.cleanup = none) ∨
      ∃ m0 timer due, t.world.app.message = some m0 ∧ t.pending = [(timer, due)] ∧
        t.cleanup = some timer ∧ t.now < due) :
    Timed.setMessage (some m) t =
      { world := App.setMessage (some m) t.world, now := t.now,
        nextTimer := t.nextTimer + 1, pending := [(t.nextTimer, t.now + 5000)],
        cleanup := some t.nextTimer } := by
  obtain ⟨world, now, nextTimer, pending, cleanup⟩ := t
  rcases h with ⟨_, hp, hc⟩ | ⟨m0, timer, due, _, hp, hc, _⟩
  · simp only at hp hc
    subst hp hc
    simp [Timed.setMessage, Timed.messageEffect, Timed.setTimeout, App.setMessage]
  · simp only at hp hc
    subst hp hc
    simp [Timed.setMessage, Timed.messageEffect, Timed.setTimeout, Timed.clearTimeout,
      App.setMessage]

/-- Clearing the message when the timer state is in order leaves no timeout
pending. -/
theorem Timed.setMessage_none_eq (t : Timed)
    (h : (t.world.app.message = none ∧ t.pending = [] ∧ t.cleanup = none) ∨
      ∃ m0 timer due, t.world.app.message = some m0 ∧ t.pending = [(timer, due)] ∧
        t.cleanup = some timer ∧ t.now < due) :
    Timed.setMessage none t =
      { world := App.setMessage none t.world, now := t.now,
        nextTimer := t.nextTimer, pending := [], cleanup := none } := by
  obtain ⟨world, now, nextTimer, pending, cleanup⟩ := t
  rcases h with ⟨hm, hp, hc⟩ | ⟨m0, timer, due, hm, hp, hc, _⟩
  · simp only at hm hp hc
    subst hp hc
    simp [Timed.setMessage, hm]
  · simp only at hm hp hc
    subst hp hc
    simp [Timed.setMessage, Timed.messageEffect, Timed.clearTimeout, App.setMessage, hm]

/-- Time passing with no timeout pending only moves the clock. -/
theorem Timed.advance_idle (t : Timed) (dt : Nat) (hp : t.pending = []) :
    Timed.advance dt t = { t with now := t.now + dt } := by
  simp [Timed.advance, hp]

/-- Time passing short of the due time of the only timeout only moves the
clock. -/
theorem Timed.advance_early (t : Timed) (dt timer due : Nat)
    (hp : t.pending = [(timer, due)]) (hlt : t.now + dt < due) :
    Timed.advance dt t = { t with now := t.now + dt } := by
  have hnot : ¬ due ≤ t.now + dt := Nat.not_le.2 hlt
  simp [Timed.advance, hp, hnot]

/-- Time passing up to or beyond the due time of the only timeout fires it:
the message is cleared and nothing is pending. -/
theorem Timed.advance_late (t : Timed) (dt timer due : Nat) (m0 : Message)
    (hm : t.world.app.message = some m0) (hp : t.pending = [(timer, due)])
    (hc : t.cleanup = some timer) (hle : due ≤ t.now + dt) :
    Timed.advance dt t =
      { world := App.setMessage none t.world, now := t.now + dt,
        nextTimer := t.nextTimer, pending := [], cleanup := none } := by
  obtain ⟨world, now, nextTimer, pending, cleanup⟩ := t
  simp only at hm hp hc hle
  subst hp hc
  simp [Timed.advance, Timed.fire, Timed.setMessage, Timed.messageEffect,
    Timed.clearTimeout, App.setMessage, hm, hle]

/-- Every event keeps the timer state in order: no message and no timeout, or
a message and exactly one timeout, the one the effect will clear, not yet due. -/
theorem timedStep_keeps_order (t : Timed) (ev : TimedEvent)
    (h : (t.world.app.message = none ∧ t.pending = [] ∧ t.cleanup = none) ∨
      ∃ m0 timer due, t.world.app.message = some m0 ∧ t.pending = [(timer, due)] ∧
        t.cleanup = some timer ∧ t.now < due) :
    ((timedStep t ev).world.app.message = none ∧ (timedStep t ev).pending = [] ∧
        (timedStep t ev).cleanup = none) ∨
      ∃ m0 timer due, (timedStep t ev).world.app.message = some m0 ∧
        (timedStep t ev).pending = [(timer, due)] ∧
        (timedStep t ev).cleanup = some timer ∧ (timedStep t ev).now < due := by
  cases ev with
  | setMessage m =>
    cases m with
    | none =>
      have e : timedStep t (.setMessage none) = Timed.setMessage none t := rfl
      rw [e, Timed.setMessage_none_eq t h]
      exact Or.inl ⟨rfl, rfl, rfl⟩
    | some m =>
      have e : timedStep t (.setMessage (some m)) = Timed.setMessage (some m) t := rfl
      rw [e, Timed.setMessage_some_eq t m h]
      exact Or.inr ⟨m, t.nextTimer, t.now + 5000, rfl, rfl, rfl, by simp⟩
  | advance dt =>
    have e : timedStep t (.advance dt) = Timed.advance dt t := rfl
    rw [e]
    rcases h with ⟨hm, hp, hc⟩ | ⟨m0, timer, due, hm, hp, hc, hlt⟩
    · rw [Timed.advance_idle t dt hp]
      exact Or.inl ⟨hm, hp, hc⟩
    · by_cases hd : due ≤ t.now + dt
      · rw [Timed.advance_late t dt timer due m0 hm hp hc hd]
        exact Or.inl ⟨rfl, rfl, rfl⟩
      · rw [Timed.advance_early t dt timer due hp (Nat.not_le.1 hd)]
        exact Or.inr ⟨m0, timer, due, hm, hp, hc, Nat.not_le.1 hd⟩

/-- The timer state is in order after every run from the mounted client. -/
theorem runTimed_keeps_order (evs : List TimedEvent) (t : Timed)
    (h : (t.world.app.message = none ∧ t.pending = [] ∧ t.cleanup = none) ∨
      ∃ m0 timer due, t.world.app.message = some m0 ∧ t.pending = [(timer, due)] ∧
        t.cleanup = some timer ∧ t.now < due) :
    ((runTimed evs t).world.app.message = none ∧ (runTimed evs t).pending = [] ∧
        (runTimed evs t).cleanup = none) ∨
      ∃ m0 timer due, (runTimed evs t).world.app.message = some m0 ∧
        (runTimed evs t).pending = [(timer, due)] ∧
        (runTimed evs t).cleanup = some timer ∧ (runTimed evs t).now < due := by
  induction evs generalizing t with
  | nil => exact h
  | cons ev evs ih => exact ih (timedStep t ev) (timedStep_keeps_order t ev h)

/-- C20: in every state reached from the mounted client by calls of
`setMessage` and the passing of time, at most one timeout is pending, and none
while the message is null.  Setting a message `m` there leaves exactly one
timeout pending, a new one due 5000 ms after this call, so the timeout of an
earlier message is gone; the message is still `m` after any time shorter than
5000 ms and is null, with nothing pending, once 5000 ms or more have passed
with no other call; and writing null leaves the message null and no timeout
pending. -/
theorem one_timer_five_seconds (evs : List TimedEvent) (m : Message) (dt : Fin 5000)
    (k : Nat) :
    (runTimed evs Timed.init).pending.length ≤ 1 ∧
    ((runTimed evs Timed.init).world.app.message ≠ none ∨
      (runTimed evs Timed.init).pending = []) ∧
    (Timed.setMessage (some m) (runTimed evs Timed.init)).pending
      = [((runTimed evs Timed.init).nextTimer, (runTimed evs Timed.init).now + 5000)] ∧
    (Timed.setMessage (some m) (runTimed evs Timed.init)).world.app.message = some m ∧
    (Timed.advance dt.val
      (Timed.setMessage (some m) (runTimed evs Timed.init))).world.app.message = some m ∧
    (Timed.advance (5000 + k)
      (Timed.setMessage (some m) (runTimed evs Timed.init))).world.app.message = none ∧
    (Timed.advance (5000 + k)
      (Timed.setMessage (some m) (runTimed evs Timed.init))).pending = [] ∧
    (Timed.setMessage none (runTimed evs Timed.init)).world.app.message = none ∧
    (Timed.setMessage none (runTimed evs Timed.init)).pending = [] := by
  have h := runTimed_keeps_order evs Timed.init (Or.inl ⟨rfl, rfl, rfl⟩)
  generalize runTimed evs Timed.init = t at h
  have hset := Timed.setMessage_some_eq t m h
  have hclr := Timed.setMessage_none_eq t h
  have hearly := Timed.advance_early (Timed.setMessage (some m) t) dt.val t.nextTimer
    (t.now + 5000) (by rw [hset]) (by rw [hset]; simp only; omega)
  have hlate := Timed.advance_late (Timed.setMessage (some m) t) (5000 + k) t.nextTimer
    (t.now + 5000) m (by rw [hset]; rfl) (by rw [hset]) (by rw [hset])
    (by rw [hset]; simp only; omega)
  refine ⟨?_, ?_, by rw [hset], by rw [hset]; rfl, ?_, ?_, ?_, by rw [hclr]; rfl,
    by rw [hclr]⟩
  · rcases h with ⟨_, hp, _⟩ | ⟨_, _, _, _, hp, _, _⟩ <;> simp [hp]
  · rcases h with ⟨_, hp, _⟩ | ⟨m0, _, _, hm, _, _, _⟩
    · exact Or.inr hp
    · exact Or.inl (by simp [hm])
  · rw [hearly, hset]
    rfl
  · rw [hlate]
    rfl
  · rw [hlate]

/-! ## Clearing the search -/

/-- C21: from any state `handleClearSearch` makes the search input the empty
string, `searchResult` null, `showAllEmployees` true and `message` null; it
leaves `employees`, which is then what is displayed, the other cells of `App`,
the state of the table and of the detail view and the request log as they
were; and running it twice gives the same state as running it once. -/
theorem clear_search_resets_and_is_idempotent (w : World) :
    (App.handleClearSearch w).app.searchId = "" ∧
    (App.handleClearSearch w).app.searchResult = none ∧
    (App.handleClearSearch w).app.showAllEmployees = true ∧
    (App.handleClearSearch w).app.message = none ∧
    (App.handleClearSearch w).app.employees = w.app.employees ∧
    App.displayedEmployees (App.handleClearSearch w).app = w.app.employees ∧
    (App.handleClearSearch w).app.loading = w.app.loading ∧
    (App.handleClearSearch w).app.isSearching = w.app.isSearching ∧
    (App.handleClearSearch w).app.showForm = w.app.showForm ∧
    (App.handleClearSearch w).table = w.table ∧
    (App.handleClearSearch w).detail = w.detail ∧
    (App.handleClearSearch w).calls = w.calls ∧
    App.handleClearSearch (App.handleClearSearch w) = App.handleClearSearch w :=
  ⟨rfl, rfl, rfl, rfl, rfl, rfl, rfl, rfl, rfl, rfl, rfl, rfl, rfl⟩

end SkillMatrix
